import Mathlib

/-!
Verification of `nessus_compliance_parser_v3.py`.

The Python source is shallowly embedded below.  Free text (element text,
field values, cell contents) is modelled as `List Char`; XML tag names as
`String`.  Python `dict`s are modelled as association lists with unique
keys, built by `dictInsert` (replace-in-place on an existing key, append
otherwise), which matches Python dict insertion-order semantics.  Python
exceptions (`AttributeError` on `None.text`/`None.replace`, `TypeError` on
`None + str`, `KeyError` on a missing dict key) are modelled with
`Except PyError`.
-/

set_option autoImplicit false

namespace Nessus

/-- Python runtime exceptions that the script can raise. -/
inductive PyError where
  | attributeError
  | typeError
  | keyError
  deriving DecidableEq, Repr

/-! ## Python `dict` model -/

/-- `d[k]` lookup: first (= unique) binding of `k`. -/
def dictLookup {K V : Type} [DecidableEq K] : List (K × V) → K → Option V
  | [], _ => none
  | (k', v) :: rest, k => if k' = k then some v else dictLookup rest k

/-- `d[k] = v`: replaces the binding in place if `k` is present
(Python dicts keep the original insertion position), else appends. -/
def dictInsert {K V : Type} [DecidableEq K] : List (K × V) → K → V → List (K × V)
  | [], k, v => [(k, v)]
  | (k', v') :: rest, k, v =>
    if k' = k then (k, v) :: rest else (k', v') :: dictInsert rest k v

/-! ## Text normalization: `get_value`

Python:
```
cleanValue = rawValue.replace('\n', '\t').strip(' ')
cleanValue = re.sub(' {2,}', ' ', cleanValue)
if len(cleanValue) > 32000:
    cleanValue = cleanValue[:32000] + ' [Text Cut Due To Length]'
return cleanValue
```
-/

/-- `rawValue.replace('\n', '\t')`. -/
def replaceNL (l : List Char) : List Char :=
  l.map (fun c => if c = '\n' then '\t' else c)

/-- `.strip(' ')`: drop spaces (only spaces) from both ends. -/
def stripSpaces (l : List Char) : List Char :=
  (l.dropWhile (fun c => c = ' ')).rdropWhile (fun c => c = ' ')

/-- State machine for `re.sub(' {2,}', ' ', s)`: every maximal run of
spaces is replaced by a single space (its first character); `b` records
whether the previous character was a space. -/
def collapseAux : Bool → List Char → List Char
  | _, [] => []
  | b, c :: rest =>
    if c = ' ' then
      if b then collapseAux true rest else ' ' :: collapseAux true rest
    else c :: collapseAux false rest

/-- `re.sub(' {2,}', ' ', s)`. -/
def collapseSpaces (l : List Char) : List Char :=
  collapseAux false l

/-- The normalization steps of `get_value` before the length cap. -/
def clean (l : List Char) : List Char :=
  collapseSpaces (stripSpaces (replaceNL l))

/-- `' [Text Cut Due To Length]'`. -/
def TRUNC_MARKER : List Char := (" [Text Cut Due To Length]").data

/-- `get_value(rawValue)` (for a non-`None` argument). -/
def get_value (rawValue : List Char) : List Char :=
  let cleanValue := clean rawValue
  if 32000 < cleanValue.length then cleanValue.take 32000 ++ TRUNC_MARKER
  else cleanValue

/-! ## XML model

An element has a tag and a text (`none` models ElementTree's `None`
text for an empty element, or Python `None` generally). A `ReportItem`
is `<ReportItem>` with its ordered direct children; a `ReportHost` is a
host record with its ordered list of `ReportItem` children. -/

structure Elem where
  tag : String
  text : Option (List Char)
  deriving DecidableEq, Repr

structure ReportItem where
  elems : List Elem
  deriving DecidableEq, Repr

structure ReportHost where
  items : List ReportItem
  deriving DecidableEq, Repr

/-- `item.find(t)`: first direct child with tag `t`. -/
def findTag (item : ReportItem) (t : String) : Option Elem :=
  item.elems.find? (fun e => e.tag = t)

/-! ## Module-level constants -/

def CHECK_NAME_TAG : String := "\x7bhttp://www.nessus.org/cm\x7dcompliance-check-name"
def RESULT_TAG : String := "\x7bhttp://www.nessus.org/cm\x7dcompliance-result"
def INFO_TAG : String := "\x7bhttp://www.nessus.org/cm\x7dcompliance-info"
def POLICY_VALUE_TAG : String := "\x7bhttp://www.nessus.org/cm\x7dcompliance-policy-value"
def ACTUAL_VALUE_TAG : String := "\x7bhttp://www.nessus.org/cm\x7dcompliance-actual-value"
def SOLUTION_TAG : String := "\x7bhttp://www.nessus.org/cm\x7dcompliance-solution"
def PROFILE_TAG : String := "\x7bhttp://www.nessus.org/cm\x7dcompliance-benchmark-profile"
def SEE_ALSO_TAG : String := "\x7bhttp://www.nessus.org/cm\x7dcompliance-see-also"

/-- `COMPLIANCE_TAGS`, in source order. -/
def COMPLIANCE_TAGS : List String :=
  [CHECK_NAME_TAG, RESULT_TAG, INFO_TAG, POLICY_VALUE_TAG, ACTUAL_VALUE_TAG,
   SOLUTION_TAG, PROFILE_TAG, SEE_ALSO_TAG]

def BENCHMARK_NAME_TAG : String := "\x7bhttp://www.nessus.org/cm\x7dcompliance-benchmark-name"
def BENCHMARK_VERSION_TAG : String := "\x7bhttp://www.nessus.org/cm\x7dcompliance-benchmark-version"

/-- `IGNORED_COMPLIANCE_CHECKS` (declared in the source, line 15). -/
def IGNORED_COMPLIANCE_CHECKS : List (List Char) :=
  [("CIS_Ubuntu_20.04_LTS_Server_v1.1.0_L1.audit from CIS Ubuntu Linux 20.04 LTS Benchmark").data]

/-! ## Report extraction: `handle_report` -/

/-- The dict comprehension
`{elem.tag: get_value(elem.text) for elem in item if elem.tag in COMPLIANCE_TAGS}`,
iterating children in order.  A recognized element with `None` text
raises `AttributeError` inside `get_value` (`None.replace`). -/
def buildIssueDictAux (acc : List (String × List Char)) :
    List Elem → Except PyError (List (String × List Char))
  | [] => .ok acc
  | e :: rest =>
    if e.tag ∈ COMPLIANCE_TAGS then
      match e.text with
      | none => .error .attributeError
      | some t => buildIssueDictAux (dictInsert acc e.tag (get_value t)) rest
    else buildIssueDictAux acc rest

def buildIssueDict (elems : List Elem) : Except PyError (List (String × List Char)) :=
  buildIssueDictAux [] elems

/-- Line 151:
`item.find(benchmark-name).text + ' v' + item.find(benchmark-version).text`,
evaluated left to right: a missing element raises `AttributeError`
(`None.text`), an empty element raises `TypeError` (`None + str`). -/
def benchString (item : ReportItem) : Except PyError (List Char) :=
  match findTag item BENCHMARK_NAME_TAG with
  | none => .error .attributeError
  | some e1 =>
    match e1.text with
    | none => .error .typeError
    | some t1 =>
      match findTag item BENCHMARK_VERSION_TAG with
      | none => .error .attributeError
      | some e2 =>
        match e2.text with
        | none => .error .typeError
        | some t2 => .ok (t1 ++ (" v").data ++ t2)

/-- Lines 159-160: default the actual-value field if absent. -/
def defaultActualValue (d : List (String × List Char)) : List (String × List Char) :=
  if (dictLookup d ACTUAL_VALUE_TAG).isSome then d
  else dictInsert d ACTUAL_VALUE_TAG ("No output recorded").data

/-- `summary_dict = {'FAILED': 0, 'PASSED': 0, 'WARNING': 0, 'ERROR': 0}`. -/
structure SummaryCounts where
  failed : Nat
  passed : Nat
  warning : Nat
  error : Nat
  deriving DecidableEq, Repr

/-- `summary_dict[result] += 1`; a result value outside the four keys
raises `KeyError` (uncaught: the `try` in the source only covers the
`issue_list` comprehension). -/
def incResult (c : SummaryCounts) (r : List Char) : Except PyError SummaryCounts :=
  if r = ("FAILED").data then .ok { c with failed := c.failed + 1 }
  else if r = ("PASSED").data then .ok { c with passed := c.passed + 1 }
  else if r = ("WARNING").data then .ok { c with warning := c.warning + 1 }
  else if r = ("ERROR").data then .ok { c with error := c.error + 1 }
  else .error .keyError

/-- `issue_list = [issue_dict[tag] for tag in COMPLIANCE_TAGS]`.
Reached only under `len(issue_dict) == len(COMPLIANCE_TAGS)`, which
forces every tag to be present, so the `KeyError` handler in the source
is unreachable; `getD` is therefore never taken on `none` there. -/
def issueRow (d : List (String × List Char)) : List (List Char) :=
  COMPLIANCE_TAGS.map (fun t => (dictLookup d t).getD [])

/-- Loop state of `handle_report`. -/
structure HRState where
  counts : SummaryCounts
  ipIssues : List (List (List Char))
  benchmarkName : List Char
  deriving DecidableEq, Repr

def initHRState : HRState :=
  { counts := ⟨0, 0, 0, 0⟩, ipIssues := [], benchmarkName := [] }

/-- One iteration of the `for item in report.findall('ReportItem')` loop. -/
def handleItem (st : HRState) (item : ReportItem) : Except PyError HRState :=
  match buildIssueDict item.elems with
  | .error e => .error e
  | .ok d0 =>
    match
      (if st.ipIssues.length = 1 ∧ st.benchmarkName = [] then benchString item
       else .ok st.benchmarkName) with
    | .error e => .error e
    | .ok bn =>
      if (defaultActualValue d0).length = COMPLIANCE_TAGS.length then
        match dictLookup (defaultActualValue d0) RESULT_TAG with
        | none => .error .keyError
        | some r =>
          match incResult st.counts r with
          | .error e => .error e
          | .ok c' => .ok ⟨c', st.ipIssues ++ [issueRow (defaultActualValue d0)], bn⟩
      else .ok { st with benchmarkName := bn }

/-- The loop over the report's items. -/
def runItems (st : HRState) : List ReportItem → Except PyError HRState
  | [] => .ok st
  | item :: rest =>
    match handleItem st item with
    | .error e => .error e
    | .ok st' => runItems st' rest

/-- `summary_counts = [benchmark_name, PASSED, FAILED, WARNING, ERROR]`
(source line 169).  Index 0 is the benchmark string; indices 1-4 are the
passed, failed, warning and error counts, in that order. -/
structure HostSummary where
  benchmark : List Char
  passed : Nat
  failed : Nat
  warning : Nat
  error : Nat
  deriving DecidableEq, Repr

/-- `handle_report(report)`: returns `(ip_issues, summary_counts)`. -/
def handle_report (report : ReportHost) :
    Except PyError (List (List (List Char)) × HostSummary) :=
  match runItems initHRState report.items with
  | .error e => .error e
  | .ok st =>
    .ok (st.ipIssues,
         ⟨st.benchmarkName, st.counts.passed, st.counts.failed,
          st.counts.warning, st.counts.error⟩)

/-! ## Writer: `get_total` and the Summary sheet row -/

/-- `get_total(ip_summary)` where `ip_summary` is the
`summary_counts` list `[benchmark_name, passed, failed, warning, error]`:
the source returns `ip_summary[1] + ip_summary[2] + (ip_summary[3] + ip_summary[4])`,
i.e. passed + failed + (warning + error). -/
def get_total (s : HostSummary) : Nat :=
  s.passed + s.failed + (s.warning + s.error)

inductive Cell where
  | str (s : List Char)
  | num (n : Nat)
  deriving DecidableEq, Repr

/-- The sequence of `summ.write(row, col, value)` calls the writer makes
for one Summary data row (source lines 69-75), in order: sequence
number, IP, then `summary_dict[ip][j]` at columns `j+2` for
`j = 0..4` (benchmark, passed, failed, warning, error), then
`get_total` at column 6, overwriting the error count written there. -/
def summaryRowWrites (rowIdx : Nat) (ip : List Char) (s : HostSummary) :
    List (Nat × Cell) :=
  [(0, .num rowIdx), (1, .str ip), (2, .str s.benchmark), (3, .num s.passed),
   (4, .num s.failed), (5, .num s.warning), (6, .num s.error),
   (6, .num (get_total s))]

/-- The value a spreadsheet cell ends up holding: the last write wins. -/
def cellAt (writes : List (Nat × Cell)) (col : Nat) : Option Cell :=
  writes.foldl (fun acc w => if w.1 = col then some w.2 else acc) none

/-! ## Main driver

`__main__` (source lines 188-203): for each input file, `ET.parse` either
raises `IOError` (missing/unreadable file: caught, prints the diagnostic
naming the file, and `exit()`s) or yields a root whose
`./Report/ReportHost` records are processed in order.  For each record
the host IP is read from `HostProperties/tag/[@name='host-ip']` (a
missing tag or `None` text raises `AttributeError`, uncaught), then
`handle_report` runs and both dicts are assigned at the IP key.  Only
after every file succeeds is `write_excel_report` called. -/

/-- Result of `ET.parse` on one input file: `ioError` models the
`IOError` raised for a missing/unreadable path; `parsedOk` carries the
`./Report/ReportHost` records, each with the text of its host-ip tag
(`none` if the tag is missing or empty). -/
inductive ParseResult where
  | ioError
  | parsedOk (hosts : List (Option (List Char) × ReportHost))
  deriving DecidableEq, Repr

/-- An input file: its command-line path and what parsing it does. -/
abbrev InputFile : Type := String × ParseResult

/-- The two accumulation dicts `summary_dict` and `ip_issues_dict`. -/
structure DictState where
  summaryDict : List (List Char × HostSummary)
  issuesDict : List (List Char × List (List (List Char)))
  deriving DecidableEq, Repr

def initDictState : DictState := ⟨[], []⟩

/-- The `for report in xmlRoot.findall('./Report/ReportHost')` loop. -/
def runHosts (st : DictState) :
    List (Option (List Char) × ReportHost) → Except PyError DictState
  | [] => .ok st
  | (none, _) :: _ => .error .attributeError
  | (some ip, rep) :: rest =>
    match handle_report rep with
    | .error e => .error e
    | .ok (res, summaryRes) =>
      runHosts ⟨dictInsert st.summaryDict ip summaryRes,
                dictInsert st.issuesDict ip res⟩ rest

/-- Observable outcome of a run. -/
inductive RunOutcome where
  | wroteWorkbook (summaryDict : List (List Char × HostSummary))
      (issuesDict : List (List Char × List (List (List Char))))
  | abortedMissingFile (path : String)
  | crashed (e : PyError)
  deriving DecidableEq, Repr

/-- The `for nessusScan in nessus_xml` loop plus the final
`write_excel_report` call.  An `IOError` prints
`Could not find file "<path>"` and `exit()`s before any workbook is
written; any other exception propagates and also aborts the run. -/
def runFiles (st : DictState) : List InputFile → RunOutcome
  | [] => .wroteWorkbook st.summaryDict st.issuesDict
  | (path, .ioError) :: _ => .abortedMissingFile path
  | (_, .parsedOk hosts) :: rest =>
    match runHosts st hosts with
    | .error e => .crashed e
    | .ok st' => runFiles st' rest

/-- The whole program on a given command line's input files. -/
def mainRun (files : List InputFile) : RunOutcome :=
  runFiles initDictState files

/-- The last record in a host list whose host-ip text equals `ip` — the
record whose dict assignments win under last-write-wins. -/
def lastReportFor :
    List (Option (List Char) × ReportHost) → List Char → Option ReportHost
  | [], _ => none
  | (oip, r) :: rest, ip =>
    match lastReportFor rest ip with
    | some r' => some r'
    | none => if oip = some ip then some r else none

/-! ## Predicates used by the lemmas below -/

/-- No newline character occurs in `l`. -/
abbrev NoNL (l : List Char) : Prop := ∀ c ∈ l, c ≠ '\n'

/-- No two adjacent spaces occur in `l` (the fixed point of
`re.sub(' {2,}', ' ', ·)`). -/
abbrev Collapsed (l : List Char) : Prop :=
  List.Chain' (fun a b => ¬(a = ' ' ∧ b = ' ')) l

/-- Executable check for `Collapsed` (used to evaluate it on concrete
lists, where the `Chain'` instance does not reduce). -/
def collapsedB : List Char → Bool
  | [] => true
  | [_] => true
  | a :: b :: rest => (!(a = ' ' && b = ' ')) && collapsedB (b :: rest)

/-- The truncation marker without its leading space. -/
def markerTail : List Char := ("[Text Cut Due To Length]").data

/-! ## Concrete sample inputs (used by witnesses and counterexamples) -/

/-- A `ReportItem` carrying all eight compliance tags (with the given
check name and result texts) followed by the given extra children. -/
def itemFull (cn res : String) (extra : List Elem) : ReportItem :=
  ⟨[⟨CHECK_NAME_TAG, some cn.data⟩, ⟨RESULT_TAG, some res.data⟩,
    ⟨INFO_TAG, some ("info").data⟩, ⟨POLICY_VALUE_TAG, some ("policy").data⟩,
    ⟨ACTUAL_VALUE_TAG, some ("actual").data⟩, ⟨SOLUTION_TAG, some ("fix").data⟩,
    ⟨PROFILE_TAG, some ("L1").data⟩, ⟨SEE_ALSO_TAG, some ("ref").data⟩] ++ extra⟩

/-- A `ReportItem` carrying only benchmark metadata: rejected by the
eight-field validity check, but usable by the benchmark-name lookup. -/
def itemBenchOnly (bn bv : String) : ReportItem :=
  ⟨[⟨BENCHMARK_NAME_TAG, some bn.data⟩, ⟨BENCHMARK_VERSION_TAG, some bv.data⟩]⟩

/-- A `ReportItem` with all compliance tags except the actual-value tag. -/
def itemNoActual : ReportItem :=
  ⟨[⟨CHECK_NAME_TAG, some ("chk").data⟩, ⟨RESULT_TAG, some ("PASSED").data⟩,
    ⟨INFO_TAG, some ("info").data⟩, ⟨POLICY_VALUE_TAG, some ("policy").data⟩,
    ⟨SOLUTION_TAG, some ("fix").data⟩, ⟨PROFILE_TAG, some ("L1").data⟩,
    ⟨SEE_ALSO_TAG, some ("ref").data⟩]⟩

/-- A `ReportItem` with all compliance tags except the solution tag:
missing a mandatory field, hence dropped. -/
def itemNoSolution : ReportItem :=
  ⟨[⟨CHECK_NAME_TAG, some ("chk").data⟩, ⟨RESULT_TAG, some ("FAILED").data⟩,
    ⟨INFO_TAG, some ("info").data⟩, ⟨POLICY_VALUE_TAG, some ("policy").data⟩,
    ⟨ACTUAL_VALUE_TAG, some ("actual").data⟩, ⟨PROFILE_TAG, some ("L1").data⟩,
    ⟨SEE_ALSO_TAG, some ("ref").data⟩]⟩

/-- A `ReportItem` whose check name is the single entry of
`IGNORED_COMPLIANCE_CHECKS`, with all eight compliance tags present. -/
def itemIgnoredCheck : ReportItem :=
  itemFull
    "CIS_Ubuntu_20.04_LTS_Server_v1.1.0_L1.audit from CIS Ubuntu Linux 20.04 LTS Benchmark"
    "PASSED" []

/-- A `ReportItem` whose only child is a recognized compliance tag with
an empty element (`None` text). -/
def itemEmptyCheckName : ReportItem := ⟨[⟨CHECK_NAME_TAG, none⟩]⟩

/-- Record refuting C2: the first item is accepted; the second carries
benchmark metadata but is rejected by the field check; the third is the
second ACCEPTED finding and carries different benchmark metadata. -/
def cexC2Host : ReportHost :=
  ⟨[itemFull "c1" "PASSED" [⟨BENCHMARK_NAME_TAG, some ("First").data⟩,
                            ⟨BENCHMARK_VERSION_TAG, some ("1").data⟩],
    itemBenchOnly "Middle" "9",
    itemFull "c3" "FAILED" [⟨BENCHMARK_NAME_TAG, some ("Third").data⟩,
                            ⟨BENCHMARK_VERSION_TAG, some ("3").data⟩]]⟩

/-! # Lemmas

## Dict lemmas -/

theorem dictLookup_insert_self {K V : Type} [DecidableEq K]
    (d : List (K × V)) (k : K) (v : V) :
    dictLookup (dictInsert d k v) k = some v := by
  induction d with
  | nil => simp [dictInsert, dictLookup]
  | cons p rest ih =>
    obtain ⟨k', v'⟩ := p
    by_cases h : k' = k
    · simp [dictInsert, h, dictLookup]
    · simp [dictInsert, h, dictLookup, ih]

theorem dictLookup_insert_ne {K V : Type} [DecidableEq K]
    (d : List (K × V)) (k k' : K) (v : V) (h : k' ≠ k) :
    dictLookup (dictInsert d k v) k' = dictLookup d k' := by
  have h' : ¬ (k = k') := Ne.symm h
  induction d with
  | nil => simp [dictInsert, dictLookup, h']
  | cons p rest ih =>
    obtain ⟨k0, v0⟩ := p
    by_cases h0 : k0 = k
    · subst h0
      simp [dictInsert, dictLookup, h']
    · simp [dictInsert, h0, dictLookup, ih]

theorem dictLookup_insert_isSome {K V : Type} [DecidableEq K]
    (d : List (K × V)) (k k' : K) (v : V) :
    (dictLookup (dictInsert d k v) k').isSome
      ↔ k' = k ∨ (dictLookup d k').isSome := by
  by_cases h : k' = k
  · subst h; simp [dictLookup_insert_self]
  · simp [dictLookup_insert_ne d k k' v h, h]

theorem length_dictInsert {K V : Type} [DecidableEq K]
    (d : List (K × V)) (k : K) (v : V) :
    (dictInsert d k v).length =
      if (dictLookup d k).isSome then d.length else d.length + 1 := by
  induction d with
  | nil => simp [dictInsert, dictLookup]
  | cons p rest ih =>
    obtain ⟨k', v'⟩ := p
    by_cases h : k' = k
    · simp [dictInsert, h, dictLookup]
    · simp [dictInsert, h, dictLookup, ih]
      by_cases h2 : (dictLookup rest k).isSome <;> simp [h2]

/-! ## Space-collapsing lemmas -/

theorem collapseAux_nil (b : Bool) : collapseAux b [] = [] := rfl

theorem collapseAux_cons_space_true (rest : List Char) :
    collapseAux true (' ' :: rest) = collapseAux true rest := by
  simp [collapseAux]

theorem collapseAux_cons_space_false (rest : List Char) :
    collapseAux false (' ' :: rest) = ' ' :: collapseAux true rest := by
  simp [collapseAux]

theorem collapseAux_cons_ne (b : Bool) (c : Char) (rest : List Char) (h : ¬ (c = ' ')) :
    collapseAux b (c :: rest) = c :: collapseAux false rest := by
  simp [collapseAux, h]

theorem mem_of_mem_collapseAux (l : List Char) :
    ∀ (b : Bool) (c : Char), c ∈ collapseAux b l → c ∈ l := by
  induction l with
  | nil => intro b c h; simp [collapseAux] at h
  | cons d rest ih =>
    intro b c h
    by_cases hd : d = ' '
    · subst hd
      cases b with
      | true =>
        rw [collapseAux_cons_space_true] at h
        exact List.mem_cons_of_mem _ (ih true c h)
      | false =>
        rw [collapseAux_cons_space_false] at h
        rcases List.mem_cons.mp h with h1 | h2
        · exact List.mem_cons.mpr (Or.inl h1)
        · exact List.mem_cons_of_mem _ (ih true c h2)
    · rw [collapseAux_cons_ne _ _ _ hd] at h
      rcases List.mem_cons.mp h with h1 | h2
      · exact List.mem_cons.mpr (Or.inl h1)
      · exact List.mem_cons_of_mem _ (ih false c h2)

theorem collapseAux_true_of_head_ne (l : List Char) (h : l.head? ≠ some ' ') :
    collapseAux true l = collapseAux false l := by
  cases l with
  | nil => rfl
  | cons c rest =>
    have hc : ¬ (c = ' ') := by intro e; exact h (by simp [e])
    rw [collapseAux_cons_ne _ _ _ hc, collapseAux_cons_ne _ _ _ hc]

theorem collapseAux_eq_self (l : List Char) :
    Collapsed l → ∀ b : Bool, (b = true → l.head? ≠ some ' ') →
    collapseAux b l = l := by
  induction l with
  | nil => intro _ b _; rfl
  | cons c rest ih =>
    intro h b hb
    have hrest : Collapsed rest := h.tail
    by_cases hc : c = ' '
    · subst hc
      have hb' : b = false := by
        cases b with
        | false => rfl
        | true => exact absurd (hb rfl) (by simp)
      subst hb'
      have hhead : rest.head? ≠ some ' ' := by
        cases rest with
        | nil => simp
        | cons d tl =>
          have hd : ¬(' ' = ' ' ∧ d = ' ') := (List.chain'_cons.mp h).1
          simp only [true_and] at hd
          simp [hd]
      rw [collapseAux_cons_space_false,
          collapseAux_true_of_head_ne rest hhead, ih hrest false (by simp)]
    · rw [collapseAux_cons_ne _ _ _ hc, ih hrest false (by simp)]

theorem head?_collapseAux_true (l : List Char) :
    (collapseAux true l).head? ≠ some ' ' := by
  induction l with
  | nil => simp [collapseAux]
  | cons c rest ih =>
    by_cases hc : c = ' '
    · subst hc; rw [collapseAux_cons_space_true]; exact ih
    · rw [collapseAux_cons_ne _ _ _ hc]
      simp [hc]

theorem head?_collapseAux_false (l : List Char) :
    (collapseAux false l).head? = l.head? := by
  cases l with
  | nil => rfl
  | cons c rest =>
    by_cases hc : c = ' '
    · subst hc; rw [collapseAux_cons_space_false]; rfl
    · rw [collapseAux_cons_ne _ _ _ hc]; rfl

theorem collapsed_collapseAux (l : List Char) :
    ∀ b : Bool, Collapsed (collapseAux b l) := by
  induction l with
  | nil => intro b; simp [collapseAux]
  | cons c rest ih =>
    intro b
    by_cases hc : c = ' '
    · subst hc
      cases b with
      | true => rw [collapseAux_cons_space_true]; exact ih true
      | false =>
        rw [collapseAux_cons_space_false]
        refine List.chain'_cons'.mpr ⟨?_, ih true⟩
        intro y hy
        have hh := head?_collapseAux_true rest
        intro ⟨_, hy'⟩
        subst hy'
        exact hh hy
    · rw [collapseAux_cons_ne _ _ _ hc]
      refine List.chain'_cons'.mpr ⟨?_, ih false⟩
      intro y _ hcon
      exact hc hcon.1

theorem collapseAux_true_eq_nil (l : List Char) :
    collapseAux true l = [] → ∀ c ∈ l, c = ' ' := by
  induction l with
  | nil => intro _ c hc; simp at hc
  | cons d rest ih =>
    intro h c hc
    by_cases hd : d = ' '
    · subst hd
      rw [collapseAux_cons_space_true] at h
      rcases List.mem_cons.mp hc with h1 | h2
      · exact h1
      · exact ih h c h2
    · rw [collapseAux_cons_ne _ _ _ hd] at h
      simp at h

theorem collapseAux_false_ne_nil (l : List Char) (h : l ≠ []) :
    collapseAux false l ≠ [] := by
  cases l with
  | nil => exact absurd rfl h
  | cons c rest =>
    by_cases hc : c = ' '
    · subst hc; rw [collapseAux_cons_space_false]; simp
    · rw [collapseAux_cons_ne _ _ _ hc]; simp

theorem getLast?_collapseAux (l : List Char) :
    l.getLast? ≠ some ' ' → ∀ b : Bool, (collapseAux b l).getLast? ≠ some ' ' := by
  induction l with
  | nil => intro _ b; simp [collapseAux]
  | cons c rest ih =>
    intro h b
    cases rest with
    | nil =>
      have hc : ¬ (c = ' ') := by simpa using h
      rw [collapseAux_cons_ne _ _ _ hc]
      simpa [collapseAux] using hc
    | cons d tl =>
      have h' : (d :: tl).getLast? ≠ some ' ' := by
        rwa [List.getLast?_cons_cons] at h
      by_cases hc : c = ' '
      · subst hc
        cases b with
        | true => rw [collapseAux_cons_space_true]; exact ih h' true
        | false =>
          rw [collapseAux_cons_space_false]
          rcases hx : collapseAux true (d :: tl) with _ | ⟨y, ys⟩
          · exfalso
            have hall := collapseAux_true_eq_nil (d :: tl) hx
            have : (d :: tl).getLast? = some ' ' := by
              have hmem : (d :: tl).getLast (by simp) ∈ d :: tl :=
                List.getLast_mem _
              rw [List.getLast?_eq_getLast _ (by simp)]
              rw [hall _ hmem]
            exact h' this
          · rw [List.getLast?_cons_cons]
            rw [← hx]
            exact ih h' true
      · rw [collapseAux_cons_ne _ _ _ hc]
        rcases hx : collapseAux false (d :: tl) with _ | ⟨y, ys⟩
        · exact absurd hx (collapseAux_false_ne_nil _ (by simp))
        · rw [List.getLast?_cons_cons, ← hx]
          exact ih h' false

theorem collapseAux_append (l₂ : List Char) : ∀ (l₁ : List Char) (b : Bool),
    Collapsed l₁ → l₁ ≠ [] → (b = true → l₁.head? ≠ some ' ') →
    l₁.getLast? ≠ some ' ' →
    collapseAux b (l₁ ++ l₂) = l₁ ++ collapseAux false l₂ := by
  intro l₁
  induction l₁ with
  | nil => intro b _ h; exact absurd rfl h
  | cons c rest ih =>
    intro b hcol hne hb hlast
    cases rest with
    | nil =>
      have hc : ¬ (c = ' ') := by simpa using hlast
      rw [List.cons_append, collapseAux_cons_ne _ _ _ hc, List.nil_append,
          List.cons_append, List.nil_append]
    | cons d tl =>
      have hcol' : Collapsed (d :: tl) := hcol.tail
      have hlast' : (d :: tl).getLast? ≠ some ' ' := by
        rwa [List.getLast?_cons_cons] at hlast
      by_cases hc : c = ' '
      · subst hc
        have hb' : b = false := by
          cases b with
          | false => rfl
          | true => exact absurd (hb rfl) (by simp)
        subst hb'
        have hd : ¬(' ' = ' ' ∧ d = ' ') := (List.chain'_cons.mp hcol).1
        simp only [true_and] at hd
        rw [List.cons_append, List.cons_append, collapseAux_cons_space_false,
            ← List.cons_append,
            ih true hcol' (by simp) (fun _ => by simp [hd]) hlast']
        rfl
      · rw [List.cons_append, collapseAux_cons_ne _ _ _ hc,
            ih false hcol' (by simp) (by simp) hlast']
        rfl

/-! ## Strip / replace / clean lemmas -/

theorem stripSpaces_sublist (l : List Char) : List.Sublist (stripSpaces l) l :=
  ((List.rdropWhile_prefix _ _).sublist).trans ((List.dropWhile_suffix _).sublist)

theorem head?_stripSpaces (l : List Char) : (stripSpaces l).head? ≠ some ' ' := by
  unfold stripSpaces
  rcases he : (l.dropWhile (fun c => c = ' ')).rdropWhile (fun c => c = ' ')
    with _ | ⟨c, rest⟩
  · simp
  · obtain ⟨t, ht⟩ := List.rdropWhile_prefix (fun c => c = ' ')
      (l.dropWhile (fun c => c = ' '))
    rw [he] at ht
    have hdw : l.dropWhile (fun c => c = ' ') = c :: (rest ++ t) := by
      rw [← ht]; rfl
    have hne : l.dropWhile (fun c => c = ' ') ≠ [] := by simp [hdw]
    have hc : (l.dropWhile (fun c => c = ' ')).head hne = c := by
      simp only [hdw, List.head_cons]
    have hnot := List.head_dropWhile_not (fun c => c = ' ') l hne
    rw [hc] at hnot
    simp only [decide_eq_false_iff_not] at hnot
    simp [hnot]

theorem getLast?_stripSpaces (l : List Char) :
    (stripSpaces l).getLast? ≠ some ' ' := by
  unfold stripSpaces
  by_cases h : (l.dropWhile (fun c => c = ' ')).rdropWhile (fun c => c = ' ') = []
  · simp [h]
  · have hlast := List.rdropWhile_last_not (fun c => c = ' ')
      (l.dropWhile (fun c => c = ' ')) h
    rw [List.getLast?_eq_getLast_of_ne_nil h]
    simpa using hlast

theorem stripSpaces_eq_self (l : List Char) (hh : l.head? ≠ some ' ')
    (hl : l.getLast? ≠ some ' ') : stripSpaces l = l := by
  unfold stripSpaces
  have h1 : l.dropWhile (fun c => c = ' ') = l := by
    cases l with
    | nil => rfl
    | cons c rest =>
      have hc : ¬ (c = ' ') := by
        intro e; exact hh (by simp [e])
      simp [List.dropWhile_cons, hc]
  rw [h1]
  rw [List.rdropWhile_eq_self_iff]
  intro hne
  rw [List.getLast?_eq_getLast_of_ne_nil hne] at hl
  simp only [decide_eq_true_eq]
  intro e
  exact hl (by rw [e])

theorem noNL_replaceNL (l : List Char) : NoNL (replaceNL l) := by
  intro c hc
  simp only [replaceNL, List.mem_map] at hc
  obtain ⟨a, _, ha⟩ := hc
  by_cases h : a = '\n'
  · rw [if_pos h] at ha; subst ha; decide
  · rw [if_neg h] at ha; subst ha; exact h

theorem replaceNL_eq_self (l : List Char) (h : NoNL l) : replaceNL l = l := by
  unfold replaceNL
  induction l with
  | nil => rfl
  | cons c rest ih =>
    have hc : ¬ (c = '\n') := h c (by simp)
    have hrest : NoNL rest := fun d hd => h d (by simp [hd])
    simp [hc, ih hrest]

theorem noNL_clean (l : List Char) : NoNL (clean l) := by
  intro c hc
  exact noNL_replaceNL l c
    ((stripSpaces_sublist (replaceNL l)).subset
      (mem_of_mem_collapseAux _ _ _ hc))

theorem head?_clean (l : List Char) : (clean l).head? ≠ some ' ' := by
  unfold clean collapseSpaces
  rw [head?_collapseAux_false]
  exact head?_stripSpaces _

theorem getLast?_clean (l : List Char) : (clean l).getLast? ≠ some ' ' :=
  getLast?_collapseAux _ (getLast?_stripSpaces _) false

theorem collapsed_clean (l : List Char) : Collapsed (clean l) :=
  collapsed_collapseAux _ false

theorem clean_eq_self (l : List Char) (h1 : NoNL l) (h2 : l.head? ≠ some ' ')
    (h3 : l.getLast? ≠ some ' ') (h4 : Collapsed l) : clean l = l := by
  unfold clean collapseSpaces
  rw [replaceNL_eq_self l h1, stripSpaces_eq_self l h2 h3,
      collapseAux_eq_self l h4 false (by simp)]

theorem clean_clean (l : List Char) : clean (clean l) = clean l :=
  clean_eq_self _ (noNL_clean l) (head?_clean l) (getLast?_clean l)
    (collapsed_clean l)

/-! ## `get_value` lemmas -/

theorem collapsed_of_collapsedB (l : List Char) (h : collapsedB l = true) :
    Collapsed l := by
  induction l with
  | nil => simp
  | cons a rest ih =>
    cases rest with
    | nil => simp
    | cons b tl =>
      rw [show collapsedB (a :: b :: tl)
            = ((!(a = ' ' && b = ' ')) && collapsedB (b :: tl)) from rfl] at h
      rw [Bool.and_eq_true] at h
      refine List.chain'_cons.mpr ⟨?_, ih h.2⟩
      intro ⟨ha, hb⟩
      subst ha; subst hb
      simp at h

theorem truncMarker_eq : TRUNC_MARKER = ' ' :: markerTail := by decide

theorem noNL_truncMarker : NoNL TRUNC_MARKER := by decide

theorem collapsed_markerTail : Collapsed markerTail :=
  collapsed_of_collapsedB _ (by decide)

theorem collapsed_truncMarker : Collapsed TRUNC_MARKER :=
  collapsed_of_collapsedB _ (by decide)

theorem head?_markerTail : markerTail.head? ≠ some ' ' := by decide

theorem getLast?_truncMarker : TRUNC_MARKER.getLast? ≠ some ' ' := by decide

theorem length_truncMarker : TRUNC_MARKER.length = 25 := by decide

theorem length_markerTail : markerTail.length = 24 := by decide

theorem get_value_of_le (s : List Char) (h : (clean s).length ≤ 32000) :
    get_value s = clean s := by
  unfold get_value
  simp [Nat.not_lt.mpr h]

theorem get_value_of_gt (s : List Char) (h : 32000 < (clean s).length) :
    get_value s = (clean s).take 32000 ++ TRUNC_MARKER := by
  unfold get_value
  simp [h]

theorem head?_take_of_pos (l : List Char) (n : Nat) (hn : n ≠ 0) :
    (l.take n).head? = l.head? := by
  cases l with
  | nil => simp
  | cons c rest =>
    cases n with
    | zero => exact absurd rfl hn
    | succ m => simp

/-- Re-cleaning a truncated output: if `T` is a nonempty cleaned prefix
(no newline, no leading space, no double space), then cleaning
`T ++ TRUNC_MARKER` either leaves it unchanged (when `T` does not end in
a space) or merely merges the boundary double space (when it does). -/
theorem clean_append_marker (T : List Char) (hNL : NoNL T)
    (hh : T.head? ≠ some ' ') (hcol : Collapsed T) (hne : T ≠ []) :
    clean (T ++ TRUNC_MARKER) = T ++ TRUNC_MARKER ∨
    clean (T ++ TRUNC_MARKER) = T ++ markerTail := by
  have hNLall : NoNL (T ++ TRUNC_MARKER) := by
    intro c hc
    rcases List.mem_append.mp hc with h1 | h2
    · exact hNL c h1
    · exact noNL_truncMarker c h2
  have hhead : (T ++ TRUNC_MARKER).head? ≠ some ' ' := by
    rw [List.head?_append_of_ne_nil _ hne]
    exact hh
  have hlastapp : (T ++ TRUNC_MARKER).getLast? ≠ some ' ' := by
    rw [List.getLast?_append_of_ne_nil _ (by decide)]
    exact getLast?_truncMarker
  unfold clean collapseSpaces
  rw [replaceNL_eq_self _ hNLall, stripSpaces_eq_self _ hhead hlastapp]
  by_cases hlastT : T.getLast? = some ' '
  · right
    have hT' : T.dropLast ++ [' '] = T :=
      List.dropLast_append_getLast? ' ' hlastT
    have hT'ne : T.dropLast ≠ [] := by
      intro e
      rw [e, List.nil_append] at hT'
      rw [← hT'] at hh
      exact hh rfl
    have hcolT : Collapsed (T.dropLast ++ [' ']) := by rw [hT']; exact hcol
    have hcol' : Collapsed T.dropLast := hcolT.left_of_append
    have hlast' : T.dropLast.getLast? ≠ some ' ' := by
      have hbd := (List.chain'_append.mp hcolT).2.2
      intro e
      exact (hbd ' ' e ' ' rfl) ⟨rfl, rfl⟩
    calc collapseAux false (T ++ TRUNC_MARKER)
        = collapseAux false (T.dropLast ++ ([' '] ++ TRUNC_MARKER)) := by
          rw [← List.append_assoc, hT']
      _ = T.dropLast ++ collapseAux false ([' '] ++ TRUNC_MARKER) :=
          collapseAux_append _ _ false hcol' hT'ne (by simp) hlast'
      _ = T.dropLast ++ (' ' :: collapseAux true (' ' :: markerTail)) := by
          rw [truncMarker_eq]
          rw [show ([' '] ++ (' ' :: markerTail)) = ' ' :: ' ' :: markerTail from rfl]
          rw [collapseAux_cons_space_false]
      _ = T.dropLast ++ (' ' :: markerTail) := by
          rw [collapseAux_cons_space_true,
              collapseAux_true_of_head_ne _ head?_markerTail,
              collapseAux_eq_self _ collapsed_markerTail false (by simp)]
      _ = T ++ markerTail := by
          rw [show (' ' :: markerTail) = [' '] ++ markerTail from rfl,
              ← List.append_assoc, hT']
  · left
    have hcolall : Collapsed (T ++ TRUNC_MARKER) := by
      refine List.chain'_append.mpr ⟨hcol, collapsed_truncMarker, ?_⟩
      intro x hx y hy
      intro ⟨hx', _⟩
      subst hx'
      exact hlastT hx
    exact collapseAux_eq_self _ hcolall false (by simp)

/-! ## Evaluation of `clean` on replicated characters
(used to exhibit concrete inputs of length 32001 without a 32001-step
kernel computation) -/

theorem dropWhile_replicate_a (n : Nat) :
    (List.replicate n 'a').dropWhile (fun c => c = ' ') = List.replicate n 'a' := by
  cases n with
  | zero => rfl
  | succ m => rw [List.replicate_succ]; simp [List.dropWhile_cons]

theorem stripSpaces_replicate_a (n : Nat) :
    stripSpaces (List.replicate n 'a') = List.replicate n 'a' := by
  unfold stripSpaces List.rdropWhile
  rw [dropWhile_replicate_a, List.reverse_replicate, dropWhile_replicate_a,
      List.reverse_replicate]

theorem collapseAux_replicate_a (n : Nat) :
    ∀ b : Bool, collapseAux b (List.replicate n 'a') = List.replicate n 'a' := by
  induction n with
  | zero => intro b; rfl
  | succ m ih =>
    intro b
    rw [List.replicate_succ, collapseAux_cons_ne _ _ _ (by decide), ih false]

theorem replaceNL_replicate_a (n : Nat) :
    replaceNL (List.replicate n 'a') = List.replicate n 'a' :=
  replaceNL_eq_self _ (fun c hc => by rw [List.eq_of_mem_replicate hc]; decide)

theorem clean_replicate_a (n : Nat) :
    clean (List.replicate n 'a') = List.replicate n 'a' := by
  unfold clean collapseSpaces
  rw [replaceNL_replicate_a, stripSpaces_replicate_a, collapseAux_replicate_a]

/-! ## Issue-dict invariants: the `len(issue_dict) == len(COMPLIANCE_TAGS)`
guard holds exactly when every compliance tag is present -/

theorem countP_congr_local (l : List String) (p q : String → Bool)
    (h : ∀ t ∈ l, p t = q t) : l.countP p = l.countP q := by
  induction l with
  | nil => rfl
  | cons a rest ih =>
    rw [List.countP_cons, List.countP_cons, h a (by simp),
        ih (fun t ht => h t (by simp [ht]))]

theorem countP_succ_of_fresh (l : List String) (hnd : l.Nodup) (k : String)
    (hk : k ∈ l) (p q : String → Bool)
    (hq : ∀ t, q t = (decide (t = k) || p t)) (hpk : p k = false) :
    l.countP q = l.countP p + 1 := by
  induction l with
  | nil => simp at hk
  | cons a rest ih =>
    rw [List.countP_cons, List.countP_cons]
    rcases List.nodup_cons.mp hnd with ⟨hna, hnd'⟩
    by_cases hak : a = k
    · subst hak
      have hcong : rest.countP q = rest.countP p := by
        apply countP_congr_local
        intro t ht
        have hta : ¬ (t = a) := fun e => hna (e ▸ ht)
        rw [hq t, decide_eq_false hta, Bool.false_or]
      rw [hcong, hq a, hpk, decide_eq_true_eq.mpr rfl]
      simp
    · have hqa : q a = p a := by
        rw [hq a, decide_eq_false hak, Bool.false_or]
      have hk' : k ∈ rest := by
        rcases List.mem_cons.mp hk with h1 | h2
        · exact absurd h1.symm hak
        · exact h2
      rw [hqa, ih hnd' hk']
      omega

theorem compliance_tags_nodup : COMPLIANCE_TAGS.Nodup := by decide

theorem dictInsert_tags_invariant (d : List (String × List Char)) (k : String)
    (v : List Char) (hk : k ∈ COMPLIANCE_TAGS)
    (hsub : ∀ t, (dictLookup d t).isSome → t ∈ COMPLIANCE_TAGS)
    (hlen : d.length = COMPLIANCE_TAGS.countP (fun t => (dictLookup d t).isSome)) :
    (∀ t, (dictLookup (dictInsert d k v) t).isSome → t ∈ COMPLIANCE_TAGS) ∧
    (dictInsert d k v).length
      = COMPLIANCE_TAGS.countP (fun t => (dictLookup (dictInsert d k v) t).isSome) := by
  constructor
  · intro t hsome
    rcases (dictLookup_insert_isSome d k t v).mp hsome with h1 | h2
    · exact h1 ▸ hk
    · exact hsub t h2
  · rw [length_dictInsert]
    cases hks : (dictLookup d k).isSome with
    | true =>
      rw [if_pos rfl, hlen]
      apply countP_congr_local
      intro t _
      by_cases htk : t = k
      · subst htk
        rw [dictLookup_insert_self, hks]
        rfl
      · rw [dictLookup_insert_ne d k t v htk]
    | false =>
      rw [if_neg (by simp), hlen]
      refine (countP_succ_of_fresh COMPLIANCE_TAGS compliance_tags_nodup k hk
        _ _ ?_ hks).symm
      intro t
      by_cases htk : t = k
      · subst htk
        rw [dictLookup_insert_self]
        simp
      · rw [dictLookup_insert_ne d k t v htk, decide_eq_false htk, Bool.false_or]


theorem buildIssueDictAux_invariant (elems : List Elem) :
    ∀ (acc d : List (String × List Char)),
    buildIssueDictAux acc elems = .ok d →
    (∀ t, (dictLookup acc t).isSome → t ∈ COMPLIANCE_TAGS) →
    acc.length = COMPLIANCE_TAGS.countP (fun t => (dictLookup acc t).isSome) →
    (∀ t, (dictLookup d t).isSome → t ∈ COMPLIANCE_TAGS) ∧
    d.length = COMPLIANCE_TAGS.countP (fun t => (dictLookup d t).isSome) := by
  induction elems with
  | nil =>
    intro acc d h hsub hlen
    rw [buildIssueDictAux] at h
    injection h with h
    subst h
    exact ⟨hsub, hlen⟩
  | cons e rest ih =>
    intro acc d h hsub hlen
    rw [buildIssueDictAux] at h
    by_cases he : e.tag ∈ COMPLIANCE_TAGS
    · rw [if_pos he] at h
      cases htext : e.text with
      | none => rw [htext] at h; cases h
      | some t =>
        rw [htext] at h
        obtain ⟨hsub', hlen'⟩ :=
          dictInsert_tags_invariant acc e.tag (get_value t) he hsub hlen
        exact ih _ d h hsub' hlen'
    · rw [if_neg he] at h
      exact ih _ d h hsub hlen

theorem buildIssueDict_invariant (elems : List Elem)
    (d : List (String × List Char)) (h : buildIssueDict elems = .ok d) :
    (∀ t, (dictLookup d t).isSome → t ∈ COMPLIANCE_TAGS) ∧
    d.length = COMPLIANCE_TAGS.countP (fun t => (dictLookup d t).isSome) := by
  refine buildIssueDictAux_invariant elems [] d h
    (by intro t ht; simp [dictLookup] at ht) ?_
  show ([] : List (String × List Char)).length
      = COMPLIANCE_TAGS.countP
          (fun t => (dictLookup ([] : List (String × List Char)) t).isSome)
  simp [dictLookup]

theorem defaultActualValue_invariant (d : List (String × List Char))
    (hsub : ∀ t, (dictLookup d t).isSome → t ∈ COMPLIANCE_TAGS)
    (hlen : d.length = COMPLIANCE_TAGS.countP (fun t => (dictLookup d t).isSome)) :
    (∀ t, (dictLookup (defaultActualValue d) t).isSome → t ∈ COMPLIANCE_TAGS) ∧
    (defaultActualValue d).length
      = COMPLIANCE_TAGS.countP
          (fun t => (dictLookup (defaultActualValue d) t).isSome) := by
  unfold defaultActualValue
  by_cases h : (dictLookup d ACTUAL_VALUE_TAG).isSome
  · rw [if_pos h]
    exact ⟨hsub, hlen⟩
  · rw [if_neg h]
    exact dictInsert_tags_invariant d ACTUAL_VALUE_TAG _ (by decide) hsub hlen

theorem length_eq_tags_iff (d : List (String × List Char))
    (hlen : d.length = COMPLIANCE_TAGS.countP (fun t => (dictLookup d t).isSome)) :
    (d.length = COMPLIANCE_TAGS.length ↔
      ∀ t ∈ COMPLIANCE_TAGS, (dictLookup d t).isSome) := by
  rw [hlen]
  exact List.countP_eq_length

/-! # Claim theorems -/

/-- C8: the text-normalization function `get_value` is idempotent: for
every input string, applying `get_value` to its own output returns that
output unchanged.  (In the truncated case the re-application either
leaves the value untouched or re-truncates at the same point and
re-appends the same marker, reproducing the input.) -/
theorem C8_get_value_idempotent (s : List Char) :
    get_value (get_value s) = get_value s := by
  by_cases h : 32000 < (clean s).length
  · have hout : get_value s = (clean s).take 32000 ++ TRUNC_MARKER :=
      get_value_of_gt s h
    set T := (clean s).take 32000 with hT
    have hTlen : T.length = 32000 := by
      rw [hT, List.length_take]
      omega
    have hTne : T ≠ [] := by
      intro e; rw [e] at hTlen; simp at hTlen
    have hTNL : NoNL T := fun c hc => noNL_clean s c (List.take_subset _ _ hc)
    have hTh : T.head? ≠ some ' ' := by
      rw [hT, head?_take_of_pos _ _ (by norm_num)]
      exact head?_clean s
    have hTcol : Collapsed T := by
      have hx := collapsed_clean s
      rw [← List.take_append_drop 32000 (clean s)] at hx
      exact hx.left_of_append
    rw [hout]
    rcases clean_append_marker T hTNL hTh hTcol hTne with hcl | hcl
    · have hlen2 : 32000 < (clean (T ++ TRUNC_MARKER)).length := by
        rw [hcl, List.length_append, hTlen, length_truncMarker]
        omega
      rw [get_value_of_gt _ hlen2, hcl, ← hTlen, List.take_left]
    · have hlen2 : 32000 < (clean (T ++ TRUNC_MARKER)).length := by
        rw [hcl, List.length_append, hTlen, length_markerTail]
        omega
      rw [get_value_of_gt _ hlen2, hcl, ← hTlen, List.take_left]
  · push_neg at h
    rw [get_value_of_le s h,
        get_value_of_le (clean s) (by rw [clean_clean]; exact h)]
    exact clean_clean s

/-- C7: for every input whose normalized (cleaned) form is exactly
32001 characters long, `get_value` returns the first 32000 characters
followed by the fixed truncation marker; every input whose cleaned form
is at most 32000 characters long is returned without a marker. -/
theorem C7_truncation_boundary (s t : List Char)
    (h1 : (clean s).length = 32001) (h2 : (clean t).length ≤ 32000) :
    get_value s = (clean s).take 32000 ++ TRUNC_MARKER ∧ get_value t = clean t :=
  ⟨get_value_of_gt s (by omega), get_value_of_le t h2⟩

/-- Witness for C7 at the concrete inputs `'a' * 32001` (cleaned length
exactly 32001, hence truncated to 32000 characters plus the marker) and
`"a"` (cleaned length 1, returned unchanged). -/
theorem C7_truncation_boundary_witness :
    (clean (List.replicate 32001 'a')).length = 32001 ∧
    (clean (['a'] : List Char)).length ≤ 32000 ∧
    get_value (List.replicate 32001 'a')
      = (clean (List.replicate 32001 'a')).take 32000 ++ TRUNC_MARKER ∧
    get_value (['a'] : List Char) = clean (['a'] : List Char) := by
  have h1 : (clean (List.replicate 32001 'a')).length = 32001 := by
    rw [clean_replicate_a, List.length_replicate]
  have h2 : (clean (['a'] : List Char)).length ≤ 32000 := by
    have he : clean (['a'] : List Char) = ['a'] := by
      rw [show (['a'] : List Char) = List.replicate 1 'a' from rfl,
          clean_replicate_a]
    rw [he]
    norm_num
  obtain ⟨w1, w2⟩ := C7_truncation_boundary (List.replicate 32001 'a') ['a'] h1 h2
  exact ⟨h1, h2, w1, w2⟩

/-- C1 is a code bug: `get_total` is documented (docstring and inline
comment in the source) to return passed + failed + warning, and the spec
says the error count is excluded by design, but the source computes
`ip_summary[1] + ip_summary[2] + (ip_summary[3] + ip_summary[4])`
= passed + failed + (warning + error).  At the failing input — a host
whose only accepted finding has result ERROR, i.e. summary counts
`['', 0, 0, 0, 1]` — the Total cell (column 6) of its Summary row is
written as 1, although passed + failed + warning = 0. -/
theorem C1_total_includes_error_count :
    get_total ⟨[], 0, 0, 0, 1⟩ = 1 ∧
    cellAt (summaryRowWrites 1 ("10.0.0.1").data ⟨[], 0, 0, 0, 1⟩) 6
      = some (.num 1) := by
  exact ⟨rfl, rfl⟩

/-- C10: a host record containing a finding entry in which a recognized
compliance tag is present as an empty element (`None` text) makes the
extraction raise (`AttributeError` from `None.replace` inside
`get_value`), aborting the whole run, rather than being dropped as a
malformed record. -/
theorem C10_empty_element_aborts_run :
    handle_report ⟨[itemEmptyCheckName]⟩ = .error .attributeError ∧
    runFiles initDictState
      [(("scan.nessus" : String),
        .parsedOk [(some ("10.0.0.1").data, ⟨[itemEmptyCheckName]⟩)])]
      = .crashed .attributeError := by
  exact ⟨rfl, rfl⟩

/-- C3: a finding entry that, after actual-value defaulting, is still
missing at least one of the eight recognized compliance fields produces
no output row and changes no PASSED/FAILED/WARNING/ERROR counter: the
loop state's issue list and counts are unchanged by that entry. -/
theorem C3_missing_field_entry_dropped (st st' : HRState) (item : ReportItem)
    (d : List (String × List Char)) (t : String)
    (hd : buildIssueDict item.elems = .ok d)
    (ht : t ∈ COMPLIANCE_TAGS)
    (hmiss : dictLookup (defaultActualValue d) t = none)
    (hrun : handleItem st item = .ok st') :
    st'.ipIssues = st.ipIssues ∧ st'.counts = st.counts := by
  obtain ⟨hsub, hlen⟩ := buildIssueDict_invariant _ _ hd
  obtain ⟨hsub', hlen'⟩ := defaultActualValue_invariant d hsub hlen
  have hne : ¬ ((defaultActualValue d).length = COMPLIANCE_TAGS.length) := by
    intro he
    have := ((length_eq_tags_iff _ hlen').mp he) t ht
    rw [hmiss] at this
    simp at this
  unfold handleItem at hrun
  rw [hd] at hrun
  split at hrun
  · exact absurd hrun (by simp)
  · rename_i d0 heq
    injection heq with heq
    subst heq
    split at hrun
    · exact absurd hrun (by simp)
    · rw [if_neg hne] at hrun
      injection hrun with hrun
      subst hrun
      exact ⟨rfl, rfl⟩

/-- Witness for C3: the loop state is unchanged by `itemNoSolution`,
an entry carrying seven of the eight fields (the solution tag missing),
starting from the initial loop state. -/
theorem C3_missing_field_entry_dropped_witness :
    ∃ st', handleItem initHRState itemNoSolution = .ok st' ∧
      st'.ipIssues = initHRState.ipIssues ∧ st'.counts = initHRState.counts := by
  refine ⟨_, rfl, ?_⟩
  exact C3_missing_field_entry_dropped initHRState _ itemNoSolution _
    SOLUTION_TAG rfl (by decide) rfl rfl

/-- C6: a finding entry in which all seven other recognized fields are
present but the actual-value field is absent is accepted, and the
actual-value column (index 4) of its output row holds the sentinel
`'No output recorded'`; moreover actual-value is the only field that is
defaulted — every other field of the defaulted dict is exactly as
extracted. -/
theorem C6_actual_value_defaulted (st st' : HRState) (item : ReportItem)
    (d : List (String × List Char))
    (hd : buildIssueDict item.elems = .ok d)
    (hmiss : dictLookup d ACTUAL_VALUE_TAG = none)
    (hothers : ∀ t ∈ COMPLIANCE_TAGS, t ≠ ACTUAL_VALUE_TAG → (dictLookup d t).isSome)
    (hrun : handleItem st item = .ok st') :
    (∃ row, st'.ipIssues = st.ipIssues ++ [row] ∧
        row.get? 4 = some (("No output recorded").data)) ∧
    (∀ t ∈ COMPLIANCE_TAGS, t ≠ ACTUAL_VALUE_TAG →
        dictLookup (defaultActualValue d) t = dictLookup d t) := by
  have hdef : defaultActualValue d
      = dictInsert d ACTUAL_VALUE_TAG (("No output recorded").data) := by
    unfold defaultActualValue
    rw [hmiss]
    rfl
  have hpres : ∀ t ∈ COMPLIANCE_TAGS, t ≠ ACTUAL_VALUE_TAG →
      dictLookup (defaultActualValue d) t = dictLookup d t := by
    intro t ht hne
    rw [hdef, dictLookup_insert_ne d ACTUAL_VALUE_TAG t _ hne]
  obtain ⟨hsub, hlen⟩ := buildIssueDict_invariant _ _ hd
  obtain ⟨hsub', hlen'⟩ := defaultActualValue_invariant d hsub hlen
  have hall : ∀ t ∈ COMPLIANCE_TAGS, (dictLookup (defaultActualValue d) t).isSome := by
    intro t ht
    by_cases hne : t = ACTUAL_VALUE_TAG
    · subst hne
      rw [hdef, dictLookup_insert_self]
      rfl
    · rw [hpres t ht hne]
      exact hothers t ht hne
  have hlen8 : (defaultActualValue d).length = COMPLIANCE_TAGS.length :=
    (length_eq_tags_iff _ hlen').mpr hall
  refine ⟨?_, hpres⟩
  unfold handleItem at hrun
  rw [hd] at hrun
  split at hrun
  · exact absurd hrun (by simp)
  · rename_i d0 heq
    injection heq with heq
    subst heq
    split at hrun
    · exact absurd hrun (by simp)
    · rw [if_pos hlen8] at hrun
      split at hrun
      · exact absurd hrun (by simp)
      · split at hrun
        · exact absurd hrun (by simp)
        · injection hrun with hrun
          subst hrun
          refine ⟨issueRow (defaultActualValue d), rfl, ?_⟩
          unfold issueRow
          rw [List.get?_map,
              show COMPLIANCE_TAGS.get? 4 = some ACTUAL_VALUE_TAG from rfl]
          simp [hdef, dictLookup_insert_self]

/-- Witness for C6 at `itemNoActual` (seven fields, no actual-value),
starting from the initial loop state. -/
theorem C6_actual_value_defaulted_witness :
    ∃ st', handleItem initHRState itemNoActual = .ok st' ∧
      ∃ row, st'.ipIssues = initHRState.ipIssues ++ [row] ∧
        row.get? 4 = some (("No output recorded").data) := by
  refine ⟨_, rfl, ?_⟩
  exact (C6_actual_value_defaulted initHRState _ itemNoActual _
    rfl rfl (by decide) rfl).1

/-- C4: membership of the check name in `IGNORED_COMPLIANCE_CHECKS` has
no effect on extraction — the list is never consulted by `handle_report`
(in the source it appears only inside a commented-out line).  An
otherwise-accepted entry (all eight fields present after actual-value
defaulting) whose check name is in the list is still appended to the
output and its result counter is still incremented exactly as
`incResult` prescribes. -/
theorem C4_ignored_list_not_consulted (st st' : HRState) (item : ReportItem)
    (d : List (String × List Char)) (cn rv : List Char)
    (hd : buildIssueDict item.elems = .ok d)
    (hcn : dictLookup d CHECK_NAME_TAG = some cn)
    (hmem : cn ∈ IGNORED_COMPLIANCE_CHECKS)
    (hlen8 : (defaultActualValue d).length = COMPLIANCE_TAGS.length)
    (hres : dictLookup (defaultActualValue d) RESULT_TAG = some rv)
    (hrun : handleItem st item = .ok st') :
    st'.ipIssues = st.ipIssues ++ [issueRow (defaultActualValue d)] ∧
    incResult st.counts rv = .ok st'.counts := by
  unfold handleItem at hrun
  rw [hd] at hrun
  split at hrun
  · exact absurd hrun (by simp)
  · rename_i d0 heq
    injection heq with heq
    subst heq
    split at hrun
    · exact absurd hrun (by simp)
    · rw [if_pos hlen8] at hrun
      split at hrun
      · rename_i hnone
        rw [hres] at hnone
        cases hnone
      · rename_i r hr
        rw [hres] at hr
        injection hr with hr
        subst hr
        split at hrun
        · exact absurd hrun (by simp)
        · rename_i c' hinc
          injection hrun with hrun
          subst hrun
          exact ⟨rfl, hinc⟩

/-- Witness for C4 at `itemIgnoredCheck`, whose check name is exactly
the single entry of `IGNORED_COMPLIANCE_CHECKS`: the entry is still
accepted (one row appended, PASSED counter incremented). -/
theorem C4_ignored_list_not_consulted_witness :
    ∃ st', handleItem initHRState itemIgnoredCheck = .ok st' ∧
      st'.ipIssues = initHRState.ipIssues ++ [issueRow (
        match buildIssueDict itemIgnoredCheck.elems with
        | .ok d => defaultActualValue d
        | .error _ => [])] ∧
      incResult initHRState.counts (("PASSED").data) = .ok st'.counts := by
  refine ⟨_, rfl, ?_⟩
  exact C4_ignored_list_not_consulted initHRState _ itemIgnoredCheck _
    _ _ rfl rfl (by decide) rfl rfl rfl

/-- If a prefix of the file list runs to completion, processing the
whole list continues from the accumulated dictionaries. -/
theorem runFiles_of_wroteWorkbook (l₁ : List InputFile) :
    ∀ (st : DictState) (l₂ : List InputFile)
      (sd : List (List Char × HostSummary))
      (idd : List (List Char × List (List (List Char)))),
    runFiles st l₁ = .wroteWorkbook sd idd →
    runFiles st (l₁ ++ l₂) = runFiles ⟨sd, idd⟩ l₂ := by
  induction l₁ with
  | nil =>
    intro st l₂ sd idd h
    obtain ⟨s1, s2⟩ := st
    rw [runFiles] at h
    injection h with h1 h2
    subst h1
    subst h2
    rw [List.nil_append]
  | cons f rest ih =>
    intro st l₂ sd idd h
    obtain ⟨path, pr⟩ := f
    cases pr with
    | ioError =>
      rw [runFiles] at h
      cases h
    | parsedOk hosts =>
      simp only [runFiles] at h ⊢
      cases hrh : runHosts st hosts with
      | error e => rw [hrh] at h; cases h
      | ok st2 =>
        rw [hrh] at h
        exact ih st2 l₂ sd idd h

/-- C5: if the input files before some position parse and process
cleanly and the file at that position raises `IOError`
(missing/unreadable), the run prints the diagnostic naming that file and
terminates there: no workbook is written, and the outcome does not
depend on the files listed after the failing one (they are never
processed). -/
theorem C5_missing_file_aborts_run (pre suf : List InputFile) (path : String)
    (sd : List (List Char × HostSummary))
    (idd : List (List Char × List (List (List Char))))
    (h : mainRun pre = .wroteWorkbook sd idd) :
    mainRun (pre ++ (path, .ioError) :: suf) = .abortedMissingFile path ∧
    ∀ sd' idd',
      mainRun (pre ++ (path, .ioError) :: suf) ≠ .wroteWorkbook sd' idd' := by
  have hrun : mainRun (pre ++ (path, .ioError) :: suf)
      = runFiles ⟨sd, idd⟩ ((path, .ioError) :: suf) :=
    runFiles_of_wroteWorkbook pre initDictState _ sd idd h
  constructor
  · rw [hrun]
    rfl
  · intro sd' idd' hcon
    rw [hrun] at hcon
    cases hcon

/-- Witness for C5: a valid first file (one empty host record) followed
by an unreadable second file and a would-be third file; the run reports
the second file and writes nothing, although the first file was already
processed. -/
theorem C5_missing_file_aborts_run_witness :
    mainRun [(("a.nessus" : String),
              .parsedOk [(some (("10.0.0.1").data), ⟨[]⟩)])]
      = .wroteWorkbook [((("10.0.0.1").data), ⟨[], 0, 0, 0, 0⟩)]
          [((("10.0.0.1").data), [])] ∧
    mainRun ([(("a.nessus" : String),
               .parsedOk [(some (("10.0.0.1").data), ⟨[]⟩)])]
        ++ (("b.nessus" : String), ParseResult.ioError)
            :: [(("c.nessus" : String), .parsedOk [])])
      = .abortedMissingFile "b.nessus" := by
  refine ⟨rfl, ?_⟩
  exact (C5_missing_file_aborts_run
    [(("a.nessus" : String), .parsedOk [(some (("10.0.0.1").data), ⟨[]⟩)])]
    [(("c.nessus" : String), .parsedOk [])] "b.nessus" _ _ rfl).1

/-! ## Host-map lemmas for C9 -/

theorem lastReportFor_none (hosts : List (Option (List Char) × ReportHost)) :
    ∀ ip : List Char, lastReportFor hosts ip = none →
    ∀ p ∈ hosts, p.1 ≠ some ip := by
  induction hosts with
  | nil => intro ip _ p hp; simp at hp
  | cons q rest ih =>
    intro ip h p hp
    obtain ⟨oip, r⟩ := q
    rw [lastReportFor] at h
    cases hl : lastReportFor rest ip with
    | some rx => rw [hl] at h; cases h
    | none =>
      rw [hl] at h
      by_cases ho : oip = some ip
      · rw [if_pos ho] at h; cases h
      · rcases List.mem_cons.mp hp with h1 | h2
        · subst h1; exact ho
        · exact ih ip hl p h2

theorem runHosts_lookup_untouched (hosts : List (Option (List Char) × ReportHost)) :
    ∀ (st st' : DictState) (ip : List Char),
    runHosts st hosts = .ok st' → (∀ p ∈ hosts, p.1 ≠ some ip) →
    dictLookup st'.summaryDict ip = dictLookup st.summaryDict ip ∧
    dictLookup st'.issuesDict ip = dictLookup st.issuesDict ip := by
  induction hosts with
  | nil =>
    intro st st' ip h _
    rw [runHosts] at h
    injection h with h
    subst h
    exact ⟨rfl, rfl⟩
  | cons q rest ih =>
    intro st st' ip h hne
    obtain ⟨oip, r⟩ := q
    cases oip with
    | none => simp only [runHosts] at h; cases h
    | some ip0 =>
      simp only [runHosts] at h
      cases hr : handle_report r with
      | error e => rw [hr] at h; cases h
      | ok p =>
        rw [hr] at h
        obtain ⟨rows0, summ0⟩ := p
        have hip : ¬ (ip = ip0) := by
          intro e
          exact hne (some ip0, r) (by simp) (by rw [e])
        obtain ⟨h1, h2⟩ := ih _ st' ip h (fun p hp => hne p (by simp [hp]))
        rw [h1, h2]
        exact ⟨dictLookup_insert_ne _ _ _ _ hip, dictLookup_insert_ne _ _ _ _ hip⟩

theorem runHosts_last_wins (hosts : List (Option (List Char) × ReportHost)) :
    ∀ (st st' : DictState) (ip : List Char) (r : ReportHost)
      (rows : List (List (List Char))) (summ : HostSummary),
    runHosts st hosts = .ok st' →
    lastReportFor hosts ip = some r →
    handle_report r = .ok (rows, summ) →
    dictLookup st'.summaryDict ip = some summ ∧
    dictLookup st'.issuesDict ip = some rows := by
  induction hosts with
  | nil =>
    intro st st' ip r rows summ _ hl _
    rw [lastReportFor] at hl
    cases hl
  | cons q rest ih =>
    intro st st' ip r rows summ h hl hr
    obtain ⟨oip, r0⟩ := q
    rw [lastReportFor] at hl
    cases oip with
    | none => simp only [runHosts] at h; cases h
    | some ip0 =>
      simp only [runHosts] at h
      cases hr0 : handle_report r0 with
      | error e => rw [hr0] at h; cases h
      | ok p =>
        rw [hr0] at h
        obtain ⟨rows0, summ0⟩ := p
        cases hlr : lastReportFor rest ip with
        | some rx =>
          rw [hlr] at hl
          injection hl with hl
          subst hl
          exact ih _ st' ip _ rows summ h hlr hr
        | none =>
          rw [hlr] at hl
          by_cases ho : (some ip0 : Option (List Char)) = some ip
          · rw [if_pos ho] at hl
            injection hl with hl
            subst hl
            injection ho with ho
            subst ho
            rw [hr] at hr0
            injection hr0 with hr0
            injection hr0 with e1 e2
            subst e1
            subst e2
            obtain ⟨hu1, hu2⟩ := runHosts_lookup_untouched rest _ st' _ h
              (lastReportFor_none rest _ hlr)
            rw [hu1, hu2]
            exact ⟨dictLookup_insert_self _ _ _, dictLookup_insert_self _ _ _⟩
          · rw [if_neg ho] at hl
            cases hl

/-- C9: when the same host address occurs in two input files, the data
the run leaves in both maps at that address is exactly what
`handle_report` extracts from the later file's (last) record for that
address — whatever the earlier file contributed at that key is
replaced wholesale in both the summary map and the findings map. -/
theorem C9_later_file_overwrites (f1 f2 : String)
    (hosts1 hosts2 : List (Option (List Char) × ReportHost)) (ip : List Char)
    (r : ReportHost) (rows : List (List (List Char))) (summ : HostSummary)
    (sd : List (List Char × HostSummary))
    (idd : List (List Char × List (List (List Char))))
    (hrun : mainRun [(f1, .parsedOk hosts1), (f2, .parsedOk hosts2)]
      = .wroteWorkbook sd idd)
    (hlast : lastReportFor hosts2 ip = some r)
    (hr : handle_report r = .ok (rows, summ)) :
    dictLookup sd ip = some summ ∧ dictLookup idd ip = some rows := by
  unfold mainRun at hrun
  simp only [runFiles] at hrun
  split at hrun
  · cases hrun
  · rename_i st1 h1
    split at hrun
    · cases hrun
    · rename_i st2 h2
      injection hrun with e1 e2
      subst e1
      subst e2
      exact runHosts_last_wins hosts2 st1 st2 ip r rows summ h2 hlast hr

/-- Witness for C9: the address 10.0.0.1 occurs in both input files
(first with an empty record, then with one accepted finding); the final
maps hold the second file's extraction at that address. -/
theorem C9_later_file_overwrites_witness :
    ∃ p, handle_report (⟨[itemNoActual]⟩ : ReportHost) = .ok p ∧
      ∃ sd idd,
        mainRun [(("a.nessus" : String),
                  .parsedOk [(some (("10.0.0.1").data), (⟨[]⟩ : ReportHost))]),
                 (("b.nessus" : String),
                  .parsedOk [(some (("10.0.0.1").data),
                              (⟨[itemNoActual]⟩ : ReportHost))])]
          = .wroteWorkbook sd idd ∧
        dictLookup sd (("10.0.0.1").data) = some p.2 ∧
        dictLookup idd (("10.0.0.1").data) = some p.1 := by
  refine ⟨_, rfl, _, _, rfl, ?_, ?_⟩
  · exact (C9_later_file_overwrites "a.nessus" "b.nessus"
      [(some (("10.0.0.1").data), (⟨[]⟩ : ReportHost))]
      [(some (("10.0.0.1").data), (⟨[itemNoActual]⟩ : ReportHost))]
      (("10.0.0.1").data) ⟨[itemNoActual]⟩ _ _ _ _ rfl rfl rfl).1
  · exact (C9_later_file_overwrites "a.nessus" "b.nessus"
      [(some (("10.0.0.1").data), (⟨[]⟩ : ReportHost))]
      [(some (("10.0.0.1").data), (⟨[itemNoActual]⟩ : ReportHost))]
      (("10.0.0.1").data) ⟨[itemNoActual]⟩ _ _ _ _ rfl rfl rfl).2

/-! ## Benchmark-name lemmas for C2 -/

theorem runItems_append (l₁ : List ReportItem) :
    ∀ (st st₁ : HRState) (l₂ : List ReportItem),
    runItems st l₁ = .ok st₁ →
    runItems st (l₁ ++ l₂) = runItems st₁ l₂ := by
  induction l₁ with
  | nil =>
    intro st st₁ l₂ h
    rw [runItems] at h
    injection h with h
    subst h
    rw [List.nil_append]
  | cons i rest ih =>
    intro st st₁ l₂ h
    simp only [runItems] at h
    cases hi : handleItem st i with
    | error e => rw [hi] at h; cases h
    | ok st2 =>
      rw [hi] at h
      rw [List.cons_append]
      simp only [runItems, hi]
      exact ih st2 st₁ l₂ h

theorem handleItem_benchmark_preserved (st : HRState) (item : ReportItem)
    (st2 : HRState) (h : handleItem st item = .ok st2)
    (hbn : st.benchmarkName ≠ []) : st2.benchmarkName = st.benchmarkName := by
  unfold handleItem at h
  split at h
  · cases h
  · rename_i d0 heq
    split at h
    · cases h
    · rename_i bn heq2
      have hcond : ¬ (st.ipIssues.length = 1 ∧ st.benchmarkName = []) := by
        intro hand
        exact hbn hand.2
      rw [if_neg hcond] at heq2
      injection heq2 with heq2
      subst heq2
      split at h
      · split at h
        · cases h
        · split at h
          · cases h
          · injection h with h
            subst h
            rfl
      · injection h with h
        subst h
        rfl

theorem runItems_benchmark_preserved (l : List ReportItem) :
    ∀ (st st' : HRState), runItems st l = .ok st' →
    st.benchmarkName ≠ [] → st'.benchmarkName = st.benchmarkName := by
  induction l with
  | nil =>
    intro st st' h _
    rw [runItems] at h
    injection h with h
    subst h
    rfl
  | cons i rest ih =>
    intro st st' h hbn
    simp only [runItems] at h
    cases hi : handleItem st i with
    | error e => rw [hi] at h; cases h
    | ok st2 =>
      rw [hi] at h
      have hb2 := handleItem_benchmark_preserved st i st2 hi hbn
      rw [ih st2 st' h (by rw [hb2]; exact hbn), hb2]

theorem benchString_ne_nil (item : ReportItem) (bs : List Char)
    (h : benchString item = .ok bs) : bs ≠ [] := by
  unfold benchString at h
  split at h
  · cases h
  · split at h
    · cases h
    · split at h
      · cases h
      · split at h
        · cases h
        · rename_i t1 ht1 e2 he2 t2 ht2
          injection h with h
          subst h
          intro he
          rw [show ((" v").data : List Char) = [' ', 'v'] from rfl] at he
          simp at he

theorem handleItem_first_accept (st : HRState) (x : ReportItem) (st1 : HRState)
    (d : List (String × List Char))
    (h0 : st.ipIssues = [])
    (hd : buildIssueDict x.elems = .ok d)
    (hlen8 : (defaultActualValue d).length = COMPLIANCE_TAGS.length)
    (h : handleItem st x = .ok st1) :
    st1.ipIssues.length = 1 ∧ st1.benchmarkName = st.benchmarkName := by
  unfold handleItem at h
  rw [hd] at h
  split at h
  · exact absurd h (by simp)
  · rename_i d0 heq
    injection heq with heq
    subst heq
    split at h
    · exact absurd h (by simp)
    · rename_i bn heq2
      have hcond : ¬ (st.ipIssues.length = 1 ∧ st.benchmarkName = []) := by
        intro hand
        have h1 := hand.1
        rw [h0] at h1
        simp at h1
      rw [if_neg hcond] at heq2
      injection heq2 with heq2
      subst heq2
      rw [if_pos hlen8] at h
      split at h
      · exact absurd h (by simp)
      · split at h
        · exact absurd h (by simp)
        · injection h with h
          subst h
          refine ⟨?_, rfl⟩
          rw [show (HRState.mk _ (st.ipIssues ++ [issueRow (defaultActualValue d)])
                _).ipIssues = st.ipIssues ++ [issueRow (defaultActualValue d)] from rfl,
              h0]
          rfl

theorem handleItem_sets_benchmark (st : HRState) (y : ReportItem) (st2 : HRState)
    (bs : List Char)
    (h1 : st.ipIssues.length = 1) (h2 : st.benchmarkName = [])
    (hy : benchString y = .ok bs)
    (h : handleItem st y = .ok st2) :
    st2.benchmarkName = bs := by
  unfold handleItem at h
  split at h
  · exact absurd h (by simp)
  · rename_i d0 heq
    split at h
    · exact absurd h (by simp)
    · rename_i bn heq2
      rw [if_pos ⟨h1, h2⟩, hy] at heq2
      injection heq2 with heq2
      subst heq2
      split at h
      · split at h
        · exact absurd h (by simp)
        · split at h
          · exact absurd h (by simp)
          · injection h with h
            subst h
            rfl
      · injection h with h
        subst h
        rfl

/-- Counterexample to C2 as stated.  In `cexC2Host`, items 0 and 2 are
the two accepted findings (their check names `c1` and `c3` are the two
output rows), and the benchmark metadata of the second ACCEPTED finding
(item 2) is `Third v3` — yet the Host Summary's benchmark string is
`Middle v9`, taken from the REJECTED item 1, because the source reads
the benchmark from the item processed while `len(ip_issues) == 1`,
which need not be an accepted finding.  The second half of the claim
fails too: with `cexC2Host.items.take 2` only ONE finding is accepted,
yet the benchmark string is `Middle v9`, not empty. -/
theorem C2_counterexample :
    (handle_report cexC2Host).map
        (fun p => (p.2.benchmark, p.1.map (fun row => row.get? 0)))
      = .ok ((("Middle v9").data),
             [some (("c1").data), some (("c3").data)]) ∧
    benchString (cexC2Host.items.get ⟨2, by decide⟩) = .ok (("Third v3").data) ∧
    (("Middle v9").data : List Char) ≠ ("Third v3").data ∧
    (handle_report (⟨cexC2Host.items.take 2⟩ : ReportHost)).map
        (fun p => (p.2.benchmark, p.1.length))
      = .ok ((("Middle v9").data), 1) ∧
    (("Middle v9").data : List Char) ≠ [] := by
  exact ⟨rfl, rfl, by decide, rfl, by decide⟩

/-- Positive part of the amended benchmark rule: in a record
`pre ++ x :: y :: rest` where no finding of `pre` is accepted, `x` is
accepted (its defaulted dict has all eight fields), and `y` — accepted
or not — carries benchmark metadata, the Host Summary's benchmark is
`y`'s raw benchmark-name text + ' v' + benchmark-version text. -/
theorem benchmark_from_item_after_first_accept
    (pre : List ReportItem) (x y : ReportItem) (rest : List ReportItem)
    (stp : HRState) (bs : List Char) (d : List (String × List Char))
    (res : List (List (List Char)) × HostSummary)
    (hpre : runItems initHRState pre = .ok stp)
    (hpre0 : stp.ipIssues = [])
    (hpre1 : stp.benchmarkName = [])
    (hd : buildIssueDict x.elems = .ok d)
    (hlen8 : (defaultActualValue d).length = COMPLIANCE_TAGS.length)
    (hy : benchString y = .ok bs)
    (hrun : handle_report ⟨pre ++ x :: y :: rest⟩ = .ok res) :
    res.2.benchmark = bs := by
  unfold handle_report at hrun
  cases hri : runItems initHRState (pre ++ x :: y :: rest) with
  | error e => rw [hri] at hrun; cases hrun
  | ok stf =>
    rw [hri] at hrun
    injection hrun with hrun
    subst hrun
    rw [runItems_append pre initHRState stp (x :: y :: rest) hpre] at hri
    simp only [runItems] at hri
    split at hri
    · cases hri
    · rename_i st1 hx1
      obtain ⟨hlen1, hbn1⟩ := handleItem_first_accept stp x st1 d hpre0 hd hlen8 hx1
      split at hri
      · cases hri
      · rename_i st2 hy1
        have hb2 : st2.benchmarkName = bs :=
          handleItem_sets_benchmark st1 y st2 bs hlen1 (hbn1.trans hpre1) hy hy1
        have hbf : stf.benchmarkName = st2.benchmarkName :=
          runItems_benchmark_preserved rest st2 stf hri
            (by rw [hb2]; exact benchString_ne_nil y bs hy)
        show stf.benchmarkName = bs
        rw [hbf, hb2]

/-- One loop iteration never removes output rows: it leaves `ip_issues`
unchanged or appends exactly one row. -/
theorem handleItem_ipIssues_mono (st : HRState) (item : ReportItem)
    (st2 : HRState) (h : handleItem st item = .ok st2) :
    st2.ipIssues = st.ipIssues ∨ ∃ row, st2.ipIssues = st.ipIssues ++ [row] := by
  unfold handleItem at h
  split at h
  · cases h
  · rename_i d0 heq
    split at h
    · cases h
    · rename_i bn heq2
      split at h
      · split at h
        · cases h
        · split at h
          · cases h
          · injection h with h
            subst h
            exact Or.inr ⟨_, rfl⟩
      · injection h with h
        subst h
        exact Or.inl rfl

/-- If the loop ends with an empty `ip_issues`, it started empty. -/
theorem runItems_ipIssues_nil (l : List ReportItem) :
    ∀ (st st' : HRState), runItems st l = .ok st' → st'.ipIssues = [] →
    st.ipIssues = [] := by
  induction l with
  | nil =>
    intro st st' h he
    rw [runItems] at h
    injection h with h
    subst h
    exact he
  | cons i rest ih =>
    intro st st' h he
    simp only [runItems] at h
    cases hi : handleItem st i with
    | error e => rw [hi] at h; cases h
    | ok st2 =>
      rw [hi] at h
      have h2 := ih st2 st' h he
      rcases handleItem_ipIssues_mono st i st2 hi with hm | ⟨row, hm⟩
      · rw [← hm]
        exact h2
      · rw [hm] at h2
        exact absurd h2 (by simp)

/-- An iteration entered with an accepted-count other than one leaves
the benchmark name unchanged (the guard `len(ip_issues) == 1` fails). -/
theorem handleItem_benchmark_of_len_ne_one (st : HRState) (item : ReportItem)
    (st2 : HRState) (h : handleItem st item = .ok st2)
    (hlen : st.ipIssues.length ≠ 1) : st2.benchmarkName = st.benchmarkName := by
  unfold handleItem at h
  split at h
  · cases h
  · rename_i d0 heq
    split at h
    · cases h
    · rename_i bn heq2
      have hcond : ¬ (st.ipIssues.length = 1 ∧ st.benchmarkName = []) := by
        intro hand
        exact hlen hand.1
      rw [if_neg hcond] at heq2
      injection heq2 with heq2
      subst heq2
      split at h
      · split at h
        · cases h
        · split at h
          · cases h
          · injection h with h
            subst h
            rfl
      · injection h with h
        subst h
        rfl

/-- A run that accepts no finding at all never sets the benchmark name:
if the final `ip_issues` is empty and the benchmark name starts empty,
it ends empty. -/
theorem runItems_nil_benchmark (l : List ReportItem) :
    ∀ (st st' : HRState), runItems st l = .ok st' → st'.ipIssues = [] →
    st.benchmarkName = [] → st'.benchmarkName = [] := by
  induction l with
  | nil =>
    intro st st' h _ hb
    rw [runItems] at h
    injection h with h
    subst h
    exact hb
  | cons i rest ih =>
    intro st st' h he hb
    simp only [runItems] at h
    cases hi : handleItem st i with
    | error e => rw [hi] at h; cases h
    | ok st2 =>
      rw [hi] at h
      have hst2 : st2.ipIssues = [] := runItems_ipIssues_nil rest st2 st' h he
      have hst : st.ipIssues = [] := by
        rcases handleItem_ipIssues_mono st i st2 hi with hm | ⟨row, hm⟩
        · rw [← hm]
          exact hst2
        · rw [hm] at hst2
          exact absurd hst2 (by simp)
      have hb2 : st2.benchmarkName = st.benchmarkName :=
        handleItem_benchmark_of_len_ne_one st i st2 hi (by rw [hst]; simp)
      exact ih st2 st' h he (by rw [hb2, hb])

/-- Empty-benchmark part of the amended rule, first case: when the
first accepted finding is the LAST item of the record (nothing follows
it), the benchmark name remains empty. -/
theorem benchmark_empty_of_accept_last
    (pre : List ReportItem) (x : ReportItem) (stp : HRState)
    (d : List (String × List Char))
    (res : List (List (List Char)) × HostSummary)
    (hpre : runItems initHRState pre = .ok stp)
    (hpre0 : stp.ipIssues = [])
    (hpre1 : stp.benchmarkName = [])
    (hd : buildIssueDict x.elems = .ok d)
    (hlen8 : (defaultActualValue d).length = COMPLIANCE_TAGS.length)
    (hrun : handle_report ⟨pre ++ [x]⟩ = .ok res) :
    res.2.benchmark = [] := by
  unfold handle_report at hrun
  cases hri : runItems initHRState (pre ++ [x]) with
  | error e => rw [hri] at hrun; cases hrun
  | ok stf =>
    rw [hri] at hrun
    injection hrun with hrun
    subst hrun
    rw [runItems_append pre initHRState stp [x] hpre] at hri
    simp only [runItems] at hri
    split at hri
    · cases hri
    · rename_i st1 hx1
      obtain ⟨-, hbn1⟩ := handleItem_first_accept stp x st1 d hpre0 hd hlen8 hx1
      injection hri with hri
      subst hri
      show st1.benchmarkName = []
      rw [hbn1, hpre1]

/-- Empty-benchmark part of the amended rule, second case: when no
finding of the record is accepted (the output row list is empty), the
benchmark name remains empty. -/
theorem benchmark_empty_of_no_accept (host : ReportHost)
    (res : List (List (List Char)) × HostSummary)
    (hrun : handle_report host = .ok res) (hempty : res.1 = []) :
    res.2.benchmark = [] := by
  unfold handle_report at hrun
  cases hri : runItems initHRState host.items with
  | error e => rw [hri] at hrun; cases hrun
  | ok stf =>
    rw [hri] at hrun
    injection hrun with hrun
    subst hrun
    show stf.benchmarkName = []
    exact runItems_nil_benchmark host.items initHRState stf hri hempty rfl

/-- C2 amended: the benchmark identifier+version string is taken from
the first report item processed at a point where exactly one finding
has been accepted so far — i.e. the item immediately following the
first accepted finding in record order — whether or not that item is
itself accepted; it is the raw benchmark-name text + ' v' +
benchmark-version text of that item.  If no item follows the first
accepted finding, or no finding of the record is ever accepted, the
benchmark name remains the empty string.  The three conjuncts state,
in order: the following-item rule for records `pre ++ x :: y :: rest`
(no finding of `pre` accepted, `x` accepted, `y` the following item);
the empty benchmark for records `pre ++ [x]` whose first accepted
finding `x` is the last item; and the empty benchmark for records with
no accepted finding at all (empty output row list). -/
theorem C2_amended_benchmark_rule :
    (∀ (pre : List ReportItem) (x y : ReportItem) (rest : List ReportItem)
       (stp : HRState) (bs : List Char) (d : List (String × List Char))
       (res : List (List (List Char)) × HostSummary),
       runItems initHRState pre = .ok stp → stp.ipIssues = [] →
       stp.benchmarkName = [] → buildIssueDict x.elems = .ok d →
       (defaultActualValue d).length = COMPLIANCE_TAGS.length →
       benchString y = .ok bs →
       handle_report ⟨pre ++ x :: y :: rest⟩ = .ok res →
       res.2.benchmark = bs) ∧
    (∀ (pre : List ReportItem) (x : ReportItem) (stp : HRState)
       (d : List (String × List Char))
       (res : List (List (List Char)) × HostSummary),
       runItems initHRState pre = .ok stp → stp.ipIssues = [] →
       stp.benchmarkName = [] → buildIssueDict x.elems = .ok d →
       (defaultActualValue d).length = COMPLIANCE_TAGS.length →
       handle_report ⟨pre ++ [x]⟩ = .ok res →
       res.2.benchmark = []) ∧
    (∀ (host : ReportHost) (res : List (List (List Char)) × HostSummary),
       handle_report host = .ok res → res.1 = [] →
       res.2.benchmark = []) :=
  ⟨fun pre x y rest stp bs d res hpre h0 h1 hd hl hy hr =>
     benchmark_from_item_after_first_accept pre x y rest stp bs d res
       hpre h0 h1 hd hl hy hr,
   fun pre x stp d res hpre h0 h1 hd hl hr =>
     benchmark_empty_of_accept_last pre x stp d res hpre h0 h1 hd hl hr,
   fun host res hr he => benchmark_empty_of_no_accept host res hr he⟩

/-- Witness for the amended C2, one record per conjunct: an accepted
finding followed by a benchmark-only (rejected) item yields benchmark
`B v2`; a record whose single item is the accepted finding yields an
empty benchmark; a record with no accepted finding (one seven-field
entry, dropped) yields no rows and an empty benchmark. -/
theorem C2_amended_benchmark_rule_witness :
    (∃ p, handle_report (⟨[itemFull "c1" "PASSED" [], itemBenchOnly "B" "2"]⟩
        : ReportHost) = .ok p ∧ p.2.benchmark = ("B v2").data) ∧
    (∃ p, handle_report (⟨[itemFull "c1" "PASSED" []]⟩ : ReportHost) = .ok p ∧
      p.2.benchmark = []) ∧
    (∃ p, handle_report (⟨[itemNoSolution]⟩ : ReportHost) = .ok p ∧
      p.1 = [] ∧ p.2.benchmark = []) := by
  refine ⟨⟨_, rfl, ?_⟩, ⟨_, rfl, ?_⟩, ⟨_, rfl, rfl, ?_⟩⟩
  · exact C2_amended_benchmark_rule.1
      [] (itemFull "c1" "PASSED" []) (itemBenchOnly "B" "2") [] initHRState
      (("B v2").data) _ _ rfl rfl rfl rfl rfl rfl rfl
  · exact C2_amended_benchmark_rule.2.1
      [] (itemFull "c1" "PASSED" []) initHRState _ _ rfl rfl rfl rfl rfl rfl
  · exact C2_amended_benchmark_rule.2.2 ⟨[itemNoSolution]⟩ _ rfl rfl

end Nessus
